import Mathlib

/-!
Shallow embedding of `task.go`: a bounded-time numeric pipeline with a
cancellable generator, a fan-out pool of five workers, a fan-in collector
stage gated by a wait group, and a final reconciliation step that checks
three accounting invariants.

Values travelling through the channels are `int64`; the run counts stay far
below `2^63`, so they are modelled as `Int`.  Each concurrent component is
modelled by the trace of events it performs, parametrised by the values it
receives from its upstream channel (a closed channel is modelled by the end
of that list).
-/

namespace GoPipeline

/-- Events performed by the generator goroutine: a (blocking) send of a value
into the shared input channel, the observer callback invocation, and the
deferred close of the channel executed when `Generator` returns. -/
inductive GenEvent where
  | send (v : Int)
  | call (v : Int)
  | close
  deriving DecidableEq, Repr

/-- The generator loop of `Generator` in `task.go`.  `done i` tells whether
the `ctx.Done()` case of the `select` is ready at the i-th loop iteration
(the non-blocking check taken before each publish attempt, thanks to the
`default` branch).  If it is, the loop returns and the deferred
`close(ch)` fires; otherwise the current value is sent (the send, once
started, always completes), the callback `fn` is invoked on it, and the
counter is incremented.  `fuel` bounds the number of modelled iterations;
a run that exhausts its fuel is still inside the loop, so no close event
has happened yet. -/
def genLoop (done : Nat → Bool) : Nat → Nat → Int → List GenEvent
  | 0, _, _ => []
  | fuel + 1, i, current =>
    if done i then [GenEvent.close]
    else GenEvent.send current :: GenEvent.call current ::
      genLoop done fuel (i + 1) (current + 1)

/-- `Generator(ctx, ch, fn)`: the loop starts at iteration 0 with
`current = 1`. -/
def Generator (done : Nat → Bool) (fuel : Nat) : List GenEvent :=
  genLoop done fuel 0 1

/-- The values published into the shared input channel, in order. -/
def sends (t : List GenEvent) : List Int :=
  t.filterMap fun e => match e with
    | GenEvent.send v => some v
    | _ => none

/-- The values the observer callback `fn` was invoked on, in order. -/
def calls (t : List GenEvent) : List Int :=
  t.filterMap fun e => match e with
    | GenEvent.call v => some v
    | _ => none

/-- How many times the generator closed its output channel. -/
def closeCount (t : List GenEvent) : Nat :=
  t.countP fun e => match e with
    | GenEvent.close => true
    | _ => false

/-- The closed form of a terminated generator run that published `n` values:
for each value the send is immediately followed by the callback, and the
deferred close ends the trace. -/
def genBody (n : Nat) : List GenEvent :=
  ((List.range n).map fun k : Nat =>
    [GenEvent.send ((k : Int) + 1), GenEvent.call ((k : Int) + 1)]).flatten

/-- The closed form of a terminated generator run that published `n` values:
the body followed by the deferred close. -/
def genCanonical (n : Nat) : List GenEvent :=
  genBody n ++ [GenEvent.close]

/-- The observer callback passed to `Generator` by `main` does
`atomic.AddInt64(&inputSum, i)` and `atomic.AddInt64(&inputCount, 1)` for
each observed value; folding it over the observed values yields the final
`(inputSum, inputCount)` pair. -/
def tally (vs : List Int) : Int × Int :=
  vs.foldl (fun acc i => (acc.1 + i, acc.2 + 1)) (0, 0)

/-- Events performed by a worker goroutine: a successful receive from the
shared input channel, the send of the value (unchanged) into the worker's
own output channel, the `time.Sleep(time.Millisecond)` pause, and the
deferred close of the output channel executed when the receive reports
`ok == false`. -/
inductive WorkerEvent where
  | recv (v : Int)
  | send (v : Int)
  | sleepMs (ms : Nat)
  | close
  deriving DecidableEq, Repr

/-- `Worker(in, out)` in `task.go`, as a function of the values it receives
from `in` before that channel is closed: read a value; if the channel
reports no more values, the deferred `close(out)` fires and the worker
stops; otherwise forward the value unchanged to `out`, sleep one
millisecond, and loop. -/
def Worker : List Int → List WorkerEvent
  | [] => [WorkerEvent.close]
  | v :: rest =>
      WorkerEvent.recv v :: WorkerEvent.send v :: WorkerEvent.sleepMs 1 ::
        Worker rest

/-- The values a worker published to its output channel, in order. -/
def workerSends (t : List WorkerEvent) : List Int :=
  t.filterMap fun e => match e with
    | WorkerEvent.send v => some v
    | _ => none

/-- How many times a worker closed its output channel. -/
def workerCloseCount (t : List WorkerEvent) : Nat :=
  t.countP fun e => match e with
    | WorkerEvent.close => true
    | _ => false

/-- `const NumOut = 5` in `main`: the number of worker goroutines, of worker
output channels and of collector goroutines. -/
def NumOut : Nat := 5

/-- `chIn := make(chan int64)`: the shared input channel is unbuffered. -/
def chInCapacity : Nat := 0

/-- `outs[i] = make(chan int64)`: every worker output channel is
unbuffered. -/
def outChannelCapacity : Nat := 0

/-- `chOut := make(chan int64, NumOut)`: the shared result channel is
buffered to the worker count. -/
def chOutCapacity : Nat := NumOut

/-- The values published by a terminated generator run that emitted `n`
values before observing cancellation: `1, 2, ..., n`. -/
def generated (n : Nat) : List Int :=
  (List.range n).map fun k : Nat => (k : Int) + 1

/-- The final value of the atomic accumulator `inputSum` after such a run. -/
def inputSum (n : Nat) : Int := (tally (generated n)).1

/-- The final value of the atomic accumulator `inputCount` after such a
run. -/
def inputCount (n : Nat) : Int := (tally (generated n)).2

/-- The fan-out distribution: each published item is received by exactly one
worker (the unbuffered `chIn` delivers each value to a single reader).
`assign k` names the lane that received the (k+1)-st published value;
`lane assign n i` is the stream worker `i` received, in publication
order (per-lane order is preserved). -/
def lane (assign : Nat → Fin NumOut) (n : Nat) (i : Fin NumOut) : List Int :=
  ((List.range n).filter fun k => assign k = i).map fun k : Nat => (k : Int) + 1

/-- The collector goroutine launched by `main` for one lane: read from the
worker output channel; on a closed channel report `wg.Done()` and stop;
otherwise forward the value to `chOut` and increment the lane's slot of
`amounts`.  The result is the stream written to `chOut` paired with the
final counter value. -/
def collectorLoop : List Int → Int → List Int × Int
  | [], amt => ([], amt)
  | v :: rest, amt =>
      let r := collectorLoop rest (amt + 1)
      (v :: r.1, r.2)

/-- What one collector wrote into the shared result channel. -/
def collectorOut (l : List Int) : List Int := (collectorLoop l 0).1

/-- `amounts[i]` at the end of the run: lane `i`'s counter, owned exclusively
by collector `i` (it starts at 0). -/
def amounts (assign : Nat → Fin NumOut) (n : Nat) (i : Fin NumOut) : Int :=
  (collectorLoop (lane assign n i) 0).2

/-- The multiset of values written into `chOut`, one contiguous block per
collector; the actual channel contents are an interleaving — hence any
permutation — of these blocks. -/
def lanesJoined (assign : Nat → Fin NumOut) (n : Nat) : List Int :=
  ((List.finRange NumOut).map fun i => collectorOut (lane assign n i)).flatten

/-- Events of the completion-barrier goroutine's view: each collector's
`wg.Done()` report, and the single `close(chOut)` executed after
`wg.Wait()` returns. -/
inductive BarrierEvent where
  | laneDone (i : Fin NumOut)
  | closeChOut
  deriving DecidableEq, Repr

/-- The barrier goroutine `go func() { wg.Wait(); close(chOut) }()`:
`wg.Wait()` returns only after all `NumOut` collectors have reported
`wg.Done()` (in some scheduling order `doneOrder`), and only then is the
result channel closed. -/
def barrierTrace (doneOrder : List (Fin NumOut)) : List BarrierEvent :=
  doneOrder.map BarrierEvent.laneDone ++ [BarrierEvent.closeChOut]

/-- The reconciliation loop of `main`: range over `chOut` until it is
closed, incrementing `count` and adding each value to `sum`. -/
def drain : List Int → Int × Int → Int × Int
  | [], acc => acc
  | v :: rest, acc => drain rest (acc.1 + 1, acc.2 + v)

/-- The final value of `count` in `main`. -/
def finalCount (merged : List Int) : Int := (drain merged (0, 0)).1

/-- The final value of `sum` in `main`. -/
def finalSum (merged : List Int) : Int := (drain merged (0, 0)).2

/-- How `main` terminates: a normal return (process exit status 0) or a
`log.Fatalf` with its message (abnormal termination). -/
inductive ExitStatus where
  | normal
  | fatal (msg : String)
  deriving DecidableEq, Repr

/-- The message of the first `log.Fatalf` in `main`, with both conflicting
sums substituted for the two `%d` verbs. -/
def sumMismatchMsg (a b : Int) : String :=
  "Ошибка: суммы чисел не равны: " ++ toString a ++ " != " ++ toString b
    ++ "\n"

/-- The message of the second `log.Fatalf` in `main`, with both conflicting
counts substituted for the two `%d` verbs. -/
def countMismatchMsg (a b : Int) : String :=
  "Ошибка: количество чисел не равно: " ++ toString a ++ " != " ++ toString b
    ++ "\n"

/-- The message of the third `log.Fatalf` in `main`: a fixed string with no
format verbs. -/
def distributionMismatchMsg : String :=
  "Ошибка: разделение чисел по каналам неверное\n"

/-- The destructive distribution check: `for _, v := range amounts
{ inputCount -= v }`, i.e. the value of the variable `inputCount` after the
subtraction loop. -/
def inputCountAfterLoop (iCount : Int) (amts : List Int) : Int :=
  amts.foldl (fun acc v => acc - v) iCount

/-- The validation block at the end of `main`: compare the sums, then the
counts, then subtract every per-lane counter from `inputCount` and require
the remainder to be zero; the first failing comparison calls `log.Fatalf`
and the process never reaches the later checks. -/
def finalChecks (iSum s iCount c : Int) (amts : List Int) : ExitStatus :=
  if iSum ≠ s then ExitStatus.fatal (sumMismatchMsg iSum s)
  else if iCount ≠ c then ExitStatus.fatal (countMismatchMsg iCount c)
  else if inputCountAfterLoop iCount amts ≠ 0 then
    ExitStatus.fatal distributionMismatchMsg
  else ExitStatus.normal

/-- Process exit code: `log.Fatalf` calls `os.Exit(1)`; a normal return from
`main` exits with status 0. -/
def exitCode : ExitStatus → Nat
  | ExitStatus.normal => 0
  | ExitStatus.fatal _ => 1

/-! ## Helper lemmas -/

theorem collectorLoop_spec (l : List Int) (amt : Int) :
    collectorLoop l amt = (l, amt + l.length) := by
  induction l generalizing amt with
  | nil => simp [collectorLoop]
  | cons v rest ih =>
      simp only [collectorLoop, ih, List.length_cons]
      rw [Prod.mk.injEq]
      refine ⟨rfl, ?_⟩
      push_cast
      ring

theorem collectorOut_id (l : List Int) : collectorOut l = l := by
  simp [collectorOut, collectorLoop_spec]

theorem drain_spec (l : List Int) (c s : Int) :
    drain l (c, s) = (c + l.length, s + l.sum) := by
  induction l generalizing c s with
  | nil => simp [drain]
  | cons v rest ih =>
      simp only [drain, ih, List.length_cons, List.sum_cons]
      rw [Prod.mk.injEq]
      constructor
      · push_cast; ring
      · ring

theorem tally_go (vs : List Int) : ∀ s c : Int,
    vs.foldl (fun acc i => (acc.1 + i, acc.2 + 1)) (s, c)
      = (s + vs.sum, c + vs.length) := by
  induction vs with
  | nil => intro s c; simp
  | cons v rest ih =>
      intro s c
      simp only [List.foldl_cons, List.sum_cons, List.length_cons]
      rw [ih]
      rw [Prod.mk.injEq]
      constructor
      · ring
      · push_cast; ring

theorem tally_spec (vs : List Int) : tally vs = (vs.sum, (vs.length : Int)) := by
  simpa [tally] using tally_go vs 0 0

theorem inputCount_eq (n : Nat) : inputCount n = n := by
  simp [inputCount, tally_spec, generated]

theorem generated_succ (n : Nat) :
    generated (n + 1) = generated n ++ [(n : Int) + 1] := by
  simp [generated, List.range_succ]

theorem inputSum_eq (n : Nat) : inputSum n = (generated n).sum := by
  simp [inputSum, tally_spec]

/-- Splitting the generator loop: while the cancellation check keeps coming
back negative, the loop alternates sends and callbacks on consecutive
values. -/
theorem genLoop_split (done : Nat → Bool) (n : Nat) :
    ∀ (fuel i0 : Nat) (c : Int), (∀ j, j < n → done (i0 + j) = false) →
      n ≤ fuel →
      genLoop done fuel i0 c =
        ((List.range n).map fun k : Nat =>
          [GenEvent.send (c + k), GenEvent.call (c + k)]).flatten
          ++ genLoop done (fuel - n) (i0 + n) (c + n) := by
  induction n with
  | zero => intro fuel i0 c _ _; simp
  | succ n ih =>
      intro fuel i0 c h hf
      obtain ⟨f, rfl⟩ : ∃ f, fuel = f + 1 := ⟨fuel - 1, by omega⟩
      have h0 : done i0 = false := by simpa using h 0 (by omega)
      have hshift : ∀ j, j < n → done (i0 + 1 + j) = false := by
        intro j hj
        have hx := h (j + 1) (by omega)
        have : i0 + (j + 1) = i0 + 1 + j := by omega
        rwa [this] at hx
      have hrec := ih f (i0 + 1) (c + 1) hshift (by omega)
      simp only [genLoop, h0, Bool.false_eq_true, if_false, hrec]
      rw [List.range_succ_eq_map, List.map_cons, List.map_map,
        List.flatten_cons]
      have hfun : ((fun k : Nat =>
            [GenEvent.send (c + k), GenEvent.call (c + k)]) ∘ Nat.succ)
          = fun k : Nat =>
            [GenEvent.send (c + 1 + k), GenEvent.call (c + 1 + k)] := by
        funext k
        simp only [Function.comp_apply]
        rw [show c + ((Nat.succ k : Nat) : Int) = c + 1 + (k : Int) by
          push_cast; ring]
      rw [hfun]
      have h1 : f + 1 - (n + 1) = f - n := by omega
      have h2 : i0 + 1 + n = i0 + (n + 1) := by omega
      have h3 : c + 1 + (n : Int) = c + ((n + 1 : Nat) : Int) := by
        push_cast; ring
      rw [h1, h2, h3]
      simp

/-- A terminated generator run: if the first `n` cancellation checks fail and
the (n+1)-st succeeds, the trace is the canonical one for `n` values. -/
theorem Generator_eq (done : Nat → Bool) (fuel n : Nat)
    (hlt : ∀ j, j < n → done j = false) (hstop : done n = true)
    (hfuel : n < fuel) :
    Generator done fuel = genCanonical n := by
  unfold Generator genCanonical genBody
  have hsplit := genLoop_split done n fuel 0 1 (by simpa using hlt)
    (by omega)
  rw [hsplit]
  obtain ⟨f, hf⟩ : ∃ f, fuel - n = f + 1 := ⟨fuel - n - 1, by omega⟩
  rw [hf]
  simp only [genLoop, Nat.zero_add, hstop, if_true]
  congr 2
  apply List.map_congr_left
  intro k _
  rw [show (1 : Int) + (k : Int) = (k : Int) + 1 by ring]

theorem genBody_succ (n : Nat) :
    genBody (n + 1) = genBody n
      ++ [GenEvent.send ((n : Int) + 1), GenEvent.call ((n : Int) + 1)] := by
  simp [genBody, List.range_succ]

theorem genBody_sends (n : Nat) : sends (genBody n) = generated n := by
  induction n with
  | zero => simp [genBody, sends, generated]
  | succ n ih =>
      rw [genBody_succ, generated_succ]
      simp only [sends, List.filterMap_append] at *
      rw [ih]
      simp [List.filterMap_cons]

theorem genBody_calls (n : Nat) : calls (genBody n) = generated n := by
  induction n with
  | zero => simp [genBody, calls, generated]
  | succ n ih =>
      rw [genBody_succ, generated_succ]
      simp only [calls, List.filterMap_append] at *
      rw [ih]
      simp [List.filterMap_cons]

theorem genBody_closeCount (n : Nat) : closeCount (genBody n) = 0 := by
  induction n with
  | zero => simp [genBody, closeCount]
  | succ n ih =>
      rw [genBody_succ]
      simp only [closeCount, List.countP_append] at *
      rw [ih]
      simp [List.countP_cons]

theorem genCanonical_sends (n : Nat) :
    sends (genCanonical n) = generated n := by
  rw [genCanonical]
  simp only [sends, List.filterMap_append]
  have := genBody_sends n
  simp only [sends] at this
  rw [this]
  simp [List.filterMap_cons]

theorem genCanonical_calls (n : Nat) :
    calls (genCanonical n) = generated n := by
  rw [genCanonical]
  simp only [calls, List.filterMap_append]
  have := genBody_calls n
  simp only [calls] at this
  rw [this]
  simp [List.filterMap_cons]

theorem genCanonical_closeCount (n : Nat) :
    closeCount (genCanonical n) = 1 := by
  rw [genCanonical]
  simp only [closeCount, List.countP_append]
  have := genBody_closeCount n
  simp only [closeCount] at this
  rw [this]
  simp [List.countP_cons]

theorem genCanonical_getLast (n : Nat) :
    (genCanonical n).getLast? = some GenEvent.close := by
  simp [genCanonical]

/-- The worker trace in closed form: receive, forward unchanged, sleep one
millisecond, per received value; then the deferred close. -/
theorem Worker_eq (input : List Int) :
    Worker input =
      (input.map fun v =>
        [WorkerEvent.recv v, WorkerEvent.send v,
          WorkerEvent.sleepMs 1]).flatten
        ++ [WorkerEvent.close] := by
  induction input with
  | nil => simp [Worker]
  | cons v rest ih => simp [Worker, ih]

theorem Worker_sends (input : List Int) :
    workerSends (Worker input) = input := by
  induction input with
  | nil => simp [Worker, workerSends]
  | cons v rest ih =>
      simp only [Worker, workerSends, List.filterMap_cons] at *
      simpa using ih

theorem Worker_closeCount (input : List Int) :
    workerCloseCount (Worker input) = 1 := by
  induction input with
  | nil => rfl
  | cons v rest ih =>
      simp only [Worker, workerCloseCount, List.countP_cons] at *
      simpa using ih

theorem Worker_getLast (input : List Int) :
    (Worker input).getLast? = some WorkerEvent.close := by
  rw [Worker_eq]
  simp

theorem lane_succ (assign : Nat → Fin NumOut) (n : Nat) (i : Fin NumOut) :
    lane assign (n + 1) i =
      lane assign n i ++ if assign n = i then [(n : Int) + 1] else [] := by
  unfold lane
  rw [List.range_succ, List.filter_append, List.map_append]
  congr 1
  by_cases h : assign n = i <;> simp [h]

theorem sum_lane_length (assign : Nat → Fin NumOut) (n : Nat) :
    (∑ i : Fin NumOut, (lane assign n i).length) = n := by
  induction n with
  | zero => simp [lane]
  | succ n ih =>
      simp only [lane_succ, List.length_append]
      rw [Finset.sum_add_distrib, ih]
      have hone : (∑ i : Fin NumOut,
          (if assign n = i then [(n : Int) + 1] else []).length) = 1 := by
        simp only [apply_ite List.length, List.length_cons, List.length_nil]
        rw [Finset.sum_ite_eq]
        simp
      omega

theorem sum_lane_sum (assign : Nat → Fin NumOut) (n : Nat) :
    (∑ i : Fin NumOut, (lane assign n i).sum) = (generated n).sum := by
  induction n with
  | zero => simp [lane, generated]
  | succ n ih =>
      simp only [lane_succ, List.sum_append]
      rw [Finset.sum_add_distrib, ih, generated_succ]
      have hstep : (∑ i : Fin NumOut,
          (if assign n = i then [(n : Int) + 1] else []).sum)
          = (n : Int) + 1 := by
        simp only [apply_ite List.sum, List.sum_cons, List.sum_nil, add_zero]
        rw [Finset.sum_ite_eq]
        simp
      rw [hstep]
      simp

theorem lanesJoined_length (assign : Nat → Fin NumOut) (n : Nat) :
    (lanesJoined assign n).length = n := by
  unfold lanesJoined
  rw [List.length_flatten]
  simp only [List.map_map, Function.comp_def, collectorOut_id]
  rw [← Fin.sum_univ_def]
  exact sum_lane_length assign n

theorem lanesJoined_sum (assign : Nat → Fin NumOut) (n : Nat) :
    (lanesJoined assign n).sum = (generated n).sum := by
  unfold lanesJoined
  rw [List.sum_flatten]
  simp only [List.map_map, Function.comp_def, collectorOut_id]
  rw [← Fin.sum_univ_def]
  exact sum_lane_sum assign n

theorem inputCountAfterLoop_eq (iCount : Int) (amts : List Int) :
    inputCountAfterLoop iCount amts = iCount - amts.sum := by
  induction amts generalizing iCount with
  | nil => simp [inputCountAfterLoop]
  | cons a rest ih =>
      simp only [inputCountAfterLoop, List.foldl_cons, List.sum_cons] at *
      rw [ih]
      ring

/-! ## Claims -/

/-- C1: in every run that reaches the reporting step — the generator emitted
`n` values, the fan-out delivered them to the lanes according to `assign`,
and the reconciliation loop drained some interleaving `merged` of the
collector outputs from the shared result channel — the drained count equals
the generator tally count, the drained sum equals the generator tally sum,
and the per-lane counters sum to the generator tally count. -/
theorem accounting_equalities (n : Nat) (assign : Nat → Fin NumOut)
    (merged : List Int) (hperm : merged.Perm (lanesJoined assign n)) :
    finalCount merged = inputCount n ∧
    finalSum merged = inputSum n ∧
    (∑ i : Fin NumOut, amounts assign n i) = inputCount n := by
  have hlen : merged.length = n := by
    rw [hperm.length_eq, lanesJoined_length]
  have hsum : merged.sum = (generated n).sum := by
    rw [hperm.sum_eq, lanesJoined_sum]
  refine ⟨?_, ?_, ?_⟩
  · rw [finalCount, drain_spec]
    simp [hlen, inputCount_eq]
  · rw [finalSum, drain_spec]
    simp [hsum, inputSum_eq]
  · have hamt : ∀ i : Fin NumOut,
        amounts assign n i = ((lane assign n i).length : Int) := by
      intro i
      rw [amounts, collectorLoop_spec]
      simp
    calc (∑ i : Fin NumOut, amounts assign n i)
        = ∑ i : Fin NumOut, ((lane assign n i).length : Int) :=
          Finset.sum_congr rfl fun i _ => hamt i
      _ = ((∑ i : Fin NumOut, (lane assign n i).length : Nat) : Int) := by
          push_cast
          rfl
      _ = (n : Int) := by rw [sum_lane_length]
      _ = inputCount n := (inputCount_eq n).symm

theorem accounting_equalities_witness :
    finalCount (lanesJoined (fun _ => (⟨0, by decide⟩ : Fin NumOut)) 3)
        = inputCount 3 ∧
    finalSum (lanesJoined (fun _ => (⟨0, by decide⟩ : Fin NumOut)) 3)
        = inputSum 3 ∧
    (∑ i : Fin NumOut, amounts (fun _ => (⟨0, by decide⟩ : Fin NumOut)) 3 i)
        = inputCount 3 :=
  accounting_equalities 3 (fun _ => (⟨0, by decide⟩ : Fin NumOut))
    (lanesJoined (fun _ => (⟨0, by decide⟩ : Fin NumOut)) 3)
    (List.Perm.refl _)

/-- C2 (counterexample): the distribution-mismatch branch of the validation
block prints a fixed message with no interpolated values: two runs with
different conflicting values (3 vs 2, and 7 vs 2) terminate with the
identical message, so the message cannot include the conflicting values. -/
theorem distribution_message_no_values :
    finalChecks 6 6 3 3 [1, 1, 0, 0, 0]
        = ExitStatus.fatal distributionMismatchMsg ∧
    finalChecks 28 28 7 7 [1, 1, 0, 0, 0]
        = ExitStatus.fatal distributionMismatchMsg ∧
    distributionMismatchMsg
        = "Ошибка: разделение чисел по каналам неверное\n" ∧
    finalChecks 6 6 3 3 [1, 1, 0, 0, 0] ≠ ExitStatus.normal := by
  refine ⟨rfl, rfl, rfl, ?_⟩
  decide

/-- C2 (amended): the sum and count checks fail loudly with a message naming
the failed check and both conflicting values; the distribution check fails
loudly with a message naming the failed check only; when all three checks
pass, `main` returns normally and the process exits with status 0. -/
theorem failure_reporting (iSum s iCount c : Int) (amts : List Int) :
    (iSum ≠ s →
      finalChecks iSum s iCount c amts
        = ExitStatus.fatal (sumMismatchMsg iSum s)) ∧
    (iSum = s → iCount ≠ c →
      finalChecks iSum s iCount c amts
        = ExitStatus.fatal (countMismatchMsg iCount c)) ∧
    (iSum = s → iCount = c → inputCountAfterLoop iCount amts ≠ 0 →
      finalChecks iSum s iCount c amts
        = ExitStatus.fatal distributionMismatchMsg) ∧
    (iSum = s → iCount = c → inputCountAfterLoop iCount amts = 0 →
      finalChecks iSum s iCount c amts = ExitStatus.normal ∧
      exitCode (finalChecks iSum s iCount c amts) = 0) := by
  refine ⟨fun h1 => by simp [finalChecks, h1],
    fun h1 h2 => by simp [finalChecks, h1, h2],
    fun h1 h2 h3 => by subst h1; subst h2; simp [finalChecks, h3],
    fun h1 h2 h3 => by subst h1; subst h2; simp [finalChecks, exitCode, h3]⟩

theorem failure_reporting_witness :
    finalChecks 5 6 9 9 [] = ExitStatus.fatal (sumMismatchMsg 5 6) ∧
    finalChecks 6 6 3 4 [] = ExitStatus.fatal (countMismatchMsg 3 4) ∧
    finalChecks 6 6 3 3 [1, 1, 0, 0, 0]
        = ExitStatus.fatal distributionMismatchMsg ∧
    finalChecks 6 6 3 3 [1, 1, 1, 0, 0] = ExitStatus.normal ∧
    exitCode (finalChecks 6 6 3 3 [1, 1, 1, 0, 0]) = 0 :=
  ⟨(failure_reporting 5 6 9 9 []).1 (by decide),
   (failure_reporting 6 6 3 4 []).2.1 rfl (by decide),
   (failure_reporting 6 6 3 3 [1, 1, 0, 0, 0]).2.2.1 rfl rfl (by decide),
   (failure_reporting 6 6 3 3 [1, 1, 1, 0, 0]).2.2.2 rfl rfl (by decide)⟩

/-- C3: collector `i` drains exactly worker `i`'s output channel: its per-lane
counter `amounts[i]` equals the number of items that traversed lane `i`, it
forwards lane `i`'s stream unchanged into the shared result channel, and a
published value traverses lane `i` precisely when the fan-out assigned it to
worker `i` — so every item belongs to exactly one lane and no worker output
channel is drained by two collector tasks. -/
theorem lane_exclusivity (assign : Nat → Fin NumOut) (n : Nat)
    (i : Fin NumOut) :
    amounts assign n i = ((lane assign n i).length : Int) ∧
    collectorOut (lane assign n i) = lane assign n i ∧
    (∀ k : Nat,
      ((k : Int) + 1) ∈ lane assign n i ↔ (k < n ∧ assign k = i)) := by
  refine ⟨?_, collectorOut_id _, ?_⟩
  · rw [amounts, collectorLoop_spec]
    simp
  · intro k
    unfold lane
    simp only [List.mem_map, List.mem_filter, List.mem_range,
      decide_eq_true_eq]
    constructor
    · rintro ⟨a, ⟨ha, hai⟩, hcast⟩
      have hak : a = k := by
        have hik : (a : Int) = (k : Int) := by linarith
        exact_mod_cast hik
      subst hak
      exact ⟨ha, hai⟩
    · rintro ⟨hk, hi⟩
      exact ⟨k, ⟨hk, hi⟩, rfl⟩

/-- C4: a terminated generator run — the first `n` cancellation checks come
back negative, the (n+1)-st positive — publishes exactly the strictly
increasing values 1,…,n; each successful publish is immediately followed by
exactly one callback invocation with the published value (before the counter
increment), so no value is skipped, repeated, or reported without having
been published. -/
theorem generator_sequence (done : Nat → Bool) (fuel n : Nat)
    (hlt : ∀ j, j < n → done j = false) (hstop : done n = true)
    (hfuel : n < fuel) :
    Generator done fuel = genCanonical n ∧
    sends (Generator done fuel) = generated n ∧
    calls (Generator done fuel) = generated n ∧
    (generated n).Pairwise (· < ·) := by
  have he := Generator_eq done fuel n hlt hstop hfuel
  refine ⟨he, by rw [he, genCanonical_sends],
    by rw [he, genCanonical_calls], ?_⟩
  unfold generated
  refine List.Pairwise.map _ ?_ (List.pairwise_lt_range n)
  intro a b hab
  omega

theorem generator_sequence_witness :
    Generator (fun i => decide (3 ≤ i)) 10 = genCanonical 3 ∧
    sends (Generator (fun i => decide (3 ≤ i)) 10) = generated 3 ∧
    calls (Generator (fun i => decide (3 ≤ i)) 10) = generated 3 ∧
    (generated 3).Pairwise (· < ·) :=
  generator_sequence (fun i => decide (3 ≤ i)) 10 3
    (by decide) (by decide) (by decide)

/-- C5: every channel is closed exactly once by its sole writer: a terminated
generator run closes the shared input channel exactly once, as its last
action (this covers every exit path — the loop only exits on cancellation);
a worker whose input is exhausted closes its own output channel exactly
once, as its last action; and the barrier goroutine closes the shared
result channel exactly once, as its last action, strictly after every one of
the `NumOut` collector tasks has reported done. -/
theorem close_discipline (done : Nat → Bool) (fuel n : Nat)
    (hlt : ∀ j, j < n → done j = false) (hstop : done n = true)
    (hfuel : n < fuel) (input : List Int) (doneOrder : List (Fin NumOut))
    (hall : ∀ i : Fin NumOut, i ∈ doneOrder) :
    closeCount (Generator done fuel) = 1 ∧
    (Generator done fuel).getLast? = some GenEvent.close ∧
    workerCloseCount (Worker input) = 1 ∧
    (Worker input).getLast? = some WorkerEvent.close ∧
    (barrierTrace doneOrder).count BarrierEvent.closeChOut = 1 ∧
    (barrierTrace doneOrder).getLast? = some BarrierEvent.closeChOut ∧
    (∀ i : Fin NumOut,
      BarrierEvent.laneDone i ∈ doneOrder.map BarrierEvent.laneDone) := by
  have he := Generator_eq done fuel n hlt hstop hfuel
  refine ⟨by rw [he, genCanonical_closeCount],
    by rw [he, genCanonical_getLast],
    Worker_closeCount input, Worker_getLast input, ?_, ?_, ?_⟩
  · rw [barrierTrace, List.count_append]
    have hz : (doneOrder.map BarrierEvent.laneDone).count
        BarrierEvent.closeChOut = 0 := by
      rw [List.count_eq_zero]
      simp [List.mem_map]
    rw [hz]
    simp [List.count_cons]
  · rw [barrierTrace]
    simp
  · intro i
    exact List.mem_map.mpr ⟨i, hall i, rfl⟩

theorem close_discipline_witness :
    closeCount (Generator (fun i => decide (2 ≤ i)) 9) = 1 ∧
    (Generator (fun i => decide (2 ≤ i)) 9).getLast? = some GenEvent.close ∧
    workerCloseCount (Worker [7, 8]) = 1 ∧
    (Worker [7, 8]).getLast? = some WorkerEvent.close ∧
    (barrierTrace (List.finRange NumOut)).count BarrierEvent.closeChOut
        = 1 ∧
    (barrierTrace (List.finRange NumOut)).getLast?
        = some BarrierEvent.closeChOut ∧
    (∀ i : Fin NumOut, BarrierEvent.laneDone i
        ∈ (List.finRange NumOut).map BarrierEvent.laneDone) :=
  close_discipline (fun i => decide (2 ≤ i)) 9 2 (by decide) (by decide)
    (by decide) [7, 8] (List.finRange NumOut)
    (fun i => List.mem_finRange i)

/-- C6: a worker repeatedly receives one value from the shared input channel,
forwards it unchanged (identity transformation) to its dedicated output
channel, then sleeps one millisecond before the next receive; when the input
channel reports no more values it closes its output channel and stops, so
its published stream equals its received stream. -/
theorem worker_behavior (input : List Int) :
    Worker input =
      (input.map fun v => [WorkerEvent.recv v, WorkerEvent.send v,
        WorkerEvent.sleepMs 1]).flatten ++ [WorkerEvent.close] ∧
    workerSends (Worker input) = input :=
  ⟨Worker_eq input, Worker_sends input⟩

/-- C7: only the generator observes cancellation, by a non-blocking check at
the head of each loop iteration; once the check at iteration `i` comes back
negative the publish of value `i+1` and its callback both complete, whatever
the cancellation signal does afterwards — an in-flight blocked publish is
never abandoned.  Workers and collectors take no cancellation signal at all:
their traces are functions of their upstream channel contents alone, and
they terminate exactly when that channel closes. -/
theorem cancellation_semantics (done : Nat → Bool) (fuel i : Nat)
    (h : ∀ j, j ≤ i → done j = false) (hfuel : i + 1 ≤ fuel) :
    GenEvent.send ((i : Int) + 1) ∈ Generator done fuel ∧
    GenEvent.call ((i : Int) + 1) ∈ Generator done fuel ∧
    (∀ input : List Int, workerSends (Worker input) = input ∧
      (Worker input).getLast? = some WorkerEvent.close) ∧
    (∀ l : List Int, collectorOut l = l) := by
  have hsplit := genLoop_split done (i + 1) fuel 0 1
    (by intro j hj; simpa using h j (by omega)) hfuel
  have hsend : GenEvent.send ((1 : Int) + i)
      ∈ ((List.range (i + 1)).map fun k : Nat =>
        [GenEvent.send ((1 : Int) + k),
          GenEvent.call ((1 : Int) + k)]).flatten :=
    List.mem_flatten.mpr
      ⟨[GenEvent.send ((1 : Int) + i), GenEvent.call ((1 : Int) + i)],
        List.mem_map.mpr ⟨i, List.mem_range.mpr (by omega), rfl⟩,
        by simp⟩
  have hcall : GenEvent.call ((1 : Int) + i)
      ∈ ((List.range (i + 1)).map fun k : Nat =>
        [GenEvent.send ((1 : Int) + k),
          GenEvent.call ((1 : Int) + k)]).flatten :=
    List.mem_flatten.mpr
      ⟨[GenEvent.send ((1 : Int) + i), GenEvent.call ((1 : Int) + i)],
        List.mem_map.mpr ⟨i, List.mem_range.mpr (by omega), rfl⟩,
        by simp⟩
  have hcomm : (1 : Int) + i = (i : Int) + 1 := by ring
  rw [hcomm] at hsend hcall
  refine ⟨?_, ?_,
    fun input => ⟨Worker_sends input, Worker_getLast input⟩,
    collectorOut_id⟩
  · rw [Generator, hsplit]
    exact List.mem_append_left _ hsend
  · rw [Generator, hsplit]
    exact List.mem_append_left _ hcall

theorem cancellation_semantics_witness :
    GenEvent.send ((2 : Int) + 1) ∈ Generator (fun j => decide (3 ≤ j)) 10 ∧
    GenEvent.call ((2 : Int) + 1) ∈ Generator (fun j => decide (3 ≤ j)) 10 ∧
    workerSends (Worker [7, 8]) = [7, 8] ∧
    collectorOut [4, 5] = [4, 5] :=
  ⟨(cancellation_semantics (fun j => decide (3 ≤ j)) 10 2
      (by decide) (by decide)).1,
   (cancellation_semantics (fun j => decide (3 ≤ j)) 10 2
      (by decide) (by decide)).2.1,
   ((cancellation_semantics (fun j => decide (3 ≤ j)) 10 2
      (by decide) (by decide)).2.2.1 [7, 8]).1,
   (cancellation_semantics (fun j => decide (3 ≤ j)) 10 2
      (by decide) (by decide)).2.2.2 [4, 5]⟩

/-- C8: the shared result channel is created with buffer capacity exactly
`NumOut`, which is the compile-time constant 5; the shared input channel and
every worker output channel are unbuffered; the reconciliation loop reads
exactly the stream on the result channel (counting and summing it), and that
stream consists exactly of the collectors' forwarded lane streams. -/
theorem channel_buffering :
    chOutCapacity = NumOut ∧ NumOut = 5 ∧ chInCapacity = 0 ∧
    outChannelCapacity = 0 ∧
    (∀ merged : List Int,
      (finalCount merged, finalSum merged)
        = ((merged.length : Int), merged.sum)) ∧
    (∀ (assign : Nat → Fin NumOut) (n : Nat),
      lanesJoined assign n
        = ((List.finRange NumOut).map fun i => lane assign n i).flatten) := by
  refine ⟨rfl, rfl, rfl, rfl, ?_, ?_⟩
  · intro merged
    rw [finalCount, finalSum, drain_spec]
    simp
  · intro assign n
    unfold lanesJoined
    simp [collectorOut_id]

/-- C9: when the generator terminates after emitting `n` values, its tallies
satisfy the closed form for the sum of the first `n` positive integers:
`inputSum == inputCount * (inputCount + 1) / 2`. -/
theorem gauss_identity (n : Nat) :
    inputSum n = inputCount n * (inputCount n + 1) / 2 := by
  have h2 : 2 * inputSum n = inputCount n * (inputCount n + 1) := by
    rw [inputSum_eq, inputCount_eq]
    induction n with
    | zero => simp [generated]
    | succ m ih =>
        rw [generated_succ]
        simp only [List.sum_append, List.sum_cons, List.sum_nil, add_zero]
        push_cast
        push_cast at ih
        ring_nf
        ring_nf at ih
        linarith
  rw [← h2]
  exact (Int.mul_ediv_cancel_left _ (by norm_num)).symm

/-- C10: the validation block runs its checks in the fixed order sum, count,
distribution — a sum mismatch is reported even when the count also
mismatches, and a count mismatch is only reported when the sums agree; the
distribution check destructively subtracts every per-lane counter from the
`inputCount` variable and requires the remainder to be exactly 0 (it equals
`inputCount` minus the sum of the counters), so on a fully successful run
the variable ends at 0. -/
theorem check_order (iSum s iCount c : Int) (amts : List Int) :
    (iSum ≠ s →
      finalChecks iSum s iCount c amts
        = ExitStatus.fatal (sumMismatchMsg iSum s)) ∧
    (iSum = s → iCount ≠ c →
      finalChecks iSum s iCount c amts
        = ExitStatus.fatal (countMismatchMsg iCount c)) ∧
    (finalChecks iSum s iCount c amts = ExitStatus.normal →
      inputCountAfterLoop iCount amts = 0) ∧
    inputCountAfterLoop iCount amts = iCount - amts.sum := by
  refine ⟨fun h1 => by simp [finalChecks, h1],
    fun h1 h2 => by simp [finalChecks, h1, h2],
    ?_, inputCountAfterLoop_eq iCount amts⟩
  intro hnorm
  by_cases h1 : iSum = s
  · by_cases h2 : iCount = c
    · by_contra hne
      subst h1
      subst h2
      simp [finalChecks, hne] at hnorm
    · subst h1
      simp [finalChecks, h2] at hnorm
  · simp [finalChecks, h1] at hnorm

theorem check_order_witness :
    finalChecks 5 6 7 9 [] = ExitStatus.fatal (sumMismatchMsg 5 6) ∧
    finalChecks 6 6 7 9 [] = ExitStatus.fatal (countMismatchMsg 7 9) ∧
    inputCountAfterLoop 3 [1, 1, 1, 0, 0] = 0 ∧
    inputCountAfterLoop 3 [1, 1, 1, 0, 0] = 3 - [1, 1, 1, 0, 0].sum :=
  ⟨(check_order 5 6 7 9 []).1 (by decide),
   (check_order 6 6 7 9 []).2.1 rfl (by decide),
   (check_order 6 6 3 3 [1, 1, 1, 0, 0]).2.2.1 rfl,
   (check_order 6 6 3 3 [1, 1, 1, 0, 0]).2.2.2⟩

end GoPipeline
